import Mathlib

/-!
Shallow embedding of the immunization-coverage ETL pipeline (`src/etl.py`).

The pipeline is a linear chain of five stateless stages over a tabular row:
header canonicalization (`to_snake_case` / `rename_cols`), numeric coercion
of the two count columns, percentage rescaling of `pct_coverage`, splitting
of the `95_pct_ci` interval string into two decimal bound columns, and
derivation of the coarse `vaccine_group` label.

Conventions of the embedding: Spark strings are `List Char` (wrapped in
`String` at row boundaries), nullable cells are `Option`, and Spark decimal
values are embedded as `Dec`, an unscaled integer mantissa together with a
scale — exactly Spark's own `Decimal` representation.  The rational value of
a decimal is recovered by `Dec.toRat`, and the integer HALF_UP rounding used
by the casts is proved equal to the rational-level HALF_UP rounding
(`roundHalfUpDiv_eq`).  Each fallible cast degrades to `none` exactly where
Spark degrades to null.
-/

/-- Python `\w` (word character), restricted to ASCII: letter, digit or `_`. -/
def isWordChar (c : Char) : Bool := c.isAlphanum || c == '_'

/-- First substitution of `to_snake_case`: `re.sub(r'(\w)([%#])', r'\1 \2', s)`.
A space is inserted between a word character and an immediately following `%`
or `#`; the scan is left-to-right and non-overlapping, resuming after each
two-character match. -/
def insertSpaces : List Char → List Char
  | c1 :: c2 :: rest =>
    if isWordChar c1 = true ∧ (c2 = '%' ∨ c2 = '#') then
      c1 :: ' ' :: c2 :: insertSpaces rest
    else
      c1 :: insertSpaces (c2 :: rest)
  | l => l

/-- Second substitution of `to_snake_case`: `re.sub(r'[#% ]', repl, s)` with
`#` ↦ `no`, `%` ↦ `pct`, space ↦ `_`; every other character is untouched. -/
def replaceSpecial (c : Char) : List Char :=
  if c = '#' then ['n', 'o']
  else if c = '%' then ['p', 'c', 't']
  else if c = ' ' then ['_']
  else [c]

/-- `to_snake_case` (src/etl.py lines 152-165): insert separating spaces,
replace the special characters, lower-case the result. -/
def to_snake_case (s : String) : String :=
  String.mk (((insertSpaces s.data).flatMap replaceSpecial).map Char.toLower)

/-- `rename_cols = [to_snake_case(c) for c in df.columns]` (line 169). -/
def rename_cols (cols : List String) : List String := cols.map to_snake_case

/-- Whitespace trimming performed by Spark's string-to-number casts
(modelled for the space character, the only whitespace in this dataset). -/
def trimSpaces (l : List Char) : List Char :=
  ((l.dropWhile (· == ' ')).reverse.dropWhile (· == ' ')).reverse

/-- Value of a digit string, most significant digit first. -/
def digitsToNat (l : List Char) : Nat :=
  l.foldl (fun a c => a * 10 + (c.toNat - 48)) 0

/-- Integer-literal parsing of Spark's string-to-int cast: optional sign
followed by at least one digit; anything else is null. -/
def parseIntChars : List Char → Option Int
  | [] => none
  | '-' :: rest =>
    if rest ≠ [] ∧ rest.all Char.isDigit = true then
      some (-(digitsToNat rest : Int))
    else none
  | '+' :: rest =>
    if rest ≠ [] ∧ rest.all Char.isDigit = true then
      some ((digitsToNat rest : Int))
    else none
  | l =>
    if l.all Char.isDigit = true then some ((digitsToNat l : Int)) else none

def int32Min : Int := -(2 ^ 31)

def int32Max : Int := 2 ^ 31 - 1

/-- Spark `cast("int")` on a string (non-ANSI): trim, parse an optional sign
and digits, null on parse failure or 32-bit overflow. -/
def sparkCastInt (l : List Char) : Option Int :=
  (parseIntChars (trimSpaces l)).bind fun v =>
    if int32Min ≤ v ∧ v ≤ int32Max then some v else none

/-- One numeric-coercion cell: `F.regexp_replace(c, ",", "").cast("int")`
(src/etl.py line 189) — drop every comma, then cast the result to int. -/
def coerceCount (s : String) : Option Int :=
  sparkCastInt (s.data.filter (fun c => c != ','))

/-- A decimal number as Spark's `Decimal` (and `java.math.BigDecimal`)
represents it: an unscaled integer mantissa `man` and a scale `exp`, denoting
the value `man / 10 ^ exp`. -/
structure Dec where
  man : ℤ
  exp : ℕ
deriving DecidableEq

/-- The rational value denoted by a `Dec`. -/
def Dec.toRat (d : Dec) : ℚ := (d.man : ℚ) / 10 ^ d.exp

/-- Rational-level HALF_UP rounding to an integer: ties are resolved away
from zero, as in `java.math.RoundingMode.HALF_UP` used by Spark's casts. -/
def roundHalfUp (q : ℚ) : ℤ := if 0 ≤ q then ⌊q + 1 / 2⌋ else ⌈q - 1 / 2⌉

/-- Integer-level HALF_UP rounding of the fraction `a / b` (for `0 < b`),
used so that the embedding is executable by the kernel; it agrees with
`roundHalfUp` by `roundHalfUpDiv_eq`. -/
def roundHalfUpDiv (a : ℤ) (b : ℕ) : ℤ :=
  if 0 ≤ a then (2 * a + b).fdiv (2 * b) else -((2 * -a + b).fdiv (2 * b))

/-- Spark `cast("decimal(4,1)")` from a numeric value: HALF_UP rounding to
scale 1, null when the rounded value does not fit precision 4. -/
def castDec41 (d : Dec) : Option Dec :=
  let n := roundHalfUpDiv (d.man * 10) (10 ^ d.exp)
  if -9999 ≤ n ∧ n ≤ 9999 then some ⟨n, 1⟩ else none

/-- Unsigned decimal-literal parsing for Spark's string-to-decimal cast:
digits, optionally a point and more digits, with at least one digit in all
(exponent notation, absent from this dataset, is not modelled). -/
def parseUnsignedDec (l : List Char) : Option Dec :=
  let ip := l.takeWhile Char.isDigit
  match l.dropWhile Char.isDigit with
  | [] => if ip = [] then none else some ⟨(digitsToNat ip : ℤ), 0⟩
  | '.' :: fp =>
    if fp.all Char.isDigit = true ∧ (ip ≠ [] ∨ fp ≠ []) then
      some ⟨(digitsToNat (ip ++ fp) : ℤ), fp.length⟩
    else none
  | _ => none

/-- Signed decimal-literal parsing. -/
def parseDecChars : List Char → Option Dec
  | '-' :: rest => (parseUnsignedDec rest).map (fun d => ⟨-d.man, d.exp⟩)
  | '+' :: rest => parseUnsignedDec rest
  | l => parseUnsignedDec l

/-- Spark `cast("decimal(4,1)")` from a string: trim, parse, round. -/
def castStrDec41 (l : List Char) : Option Dec :=
  (parseDecChars (trimSpaces l)).bind castDec41

/-- Spark `F.split(col, "-")` (src/etl.py lines 217-218): split on every
hyphen, keeping empty segments (Java `split` with limit -1). -/
def splitChar (sep : Char) : List Char → List (List Char)
  | [] => [[]]
  | c :: cs =>
    if c = sep then [] :: splitChar sep cs
    else (splitChar sep cs).modifyHead (fun seg => c :: seg)

/-- Derived column `lower_95_pct_ci` (line 217): segment 0 of the hyphen
split of the interval string, cast to `decimal(4,1)`; a missing segment or a
failed cast is null. -/
def lowerCI (s : String) : Option Dec :=
  ((splitChar '-' s.data)[0]?).bind castStrDec41

/-- Derived column `upper_95_pct_ci` (line 218): segment 1 of the hyphen
split of the interval string, cast to `decimal(4,1)`. -/
def upperCI (s : String) : Option Dec :=
  ((splitChar '-' s.data)[1]?).bind castStrDec41

/-- The multiplication `F.col("pct_coverage") * 100` (line 202) on a decimal
value: the mantissa is scaled, the scale is unchanged. -/
def mulHundred (d : Dec) : Dec := ⟨d.man * 100, d.exp⟩

/-- Percentage rescaling (line 202):
`(F.col("pct_coverage") * 100).cast("decimal (4, 1)")`, null-propagating. -/
def rescalePct (v : Option Dec) : Option Dec :=
  v.bind fun d => castDec41 (mulHundred d)

/-- Spark `F.split(col, " - ")` (line 236): split on every occurrence of the
three-character separator, scanning left to right. -/
def splitDashSep : List Char → List (List Char)
  | ' ' :: '-' :: ' ' :: rest => [] :: splitDashSep rest
  | c :: cs => (splitDashSep cs).modifyHead (fun seg => c :: seg)
  | [] => [[]]

/-- Test for the presence of the three-character separator ` - ` anywhere in
the string, mirroring the pattern structure of `splitDashSep`. -/
def containsDashSep : List Char → Bool
  | ' ' :: '-' :: ' ' :: _ => true
  | _ :: cs => containsDashSep cs
  | [] => false

/-- Derived column `vaccine_group` (lines 236-240): the first ` - `-separated
segment of the vaccine name, overridden to `"MEN-C"` whenever that segment
matches `LIKE 'MEN-C%'`, i.e. starts with `MEN-C`. -/
def vaccineGroup (s : String) : String :=
  let g := (splitDashSep s.data).headD []
  if ("MEN-C".data).isPrefixOf g then "MEN-C" else String.mk g

/-- A row of the dataset after header canonicalization, before value
transformations: the two count columns and the interval column are still
strings, `pct_coverage` is a nullable fractional number. -/
structure RawRow where
  year : Int
  zone : String
  vaccine : String
  no_eligible : String
  no_immunized : String
  pct_coverage : Option Dec
  ci_95 : String
deriving DecidableEq

/-- A row after numeric coercion and (optionally) percentage rescaling:
count columns are nullable integers. -/
structure NumRow where
  year : Int
  zone : String
  vaccine : String
  no_eligible : Option Int
  no_immunized : Option Int
  pct_coverage : Option Dec
  ci_95 : String
deriving DecidableEq

/-- A row after the range split: the interval column is dropped and the two
bound columns are added. -/
structure SplitRow where
  year : Int
  zone : String
  vaccine : String
  no_eligible : Option Int
  no_immunized : Option Int
  pct_coverage : Option Dec
  lower_95_pct_ci : Option Dec
  upper_95_pct_ci : Option Dec
deriving DecidableEq

/-- A canonical row, after all five stages. -/
structure CanonRow where
  year : Int
  zone : String
  vaccine : String
  no_eligible : Option Int
  no_immunized : Option Int
  pct_coverage : Option Dec
  lower_95_pct_ci : Option Dec
  upper_95_pct_ci : Option Dec
  vaccine_group : String
deriving DecidableEq

/-- Stage 2, numeric coercion (lines 186-189): coerce exactly the columns
listed in `num_cols = ["no_immunized", "no_eligible"]`. -/
def numCoerceStage (r : RawRow) : NumRow :=
  { year := r.year
    zone := r.zone
    vaccine := r.vaccine
    no_eligible := coerceCount r.no_eligible
    no_immunized := coerceCount r.no_immunized
    pct_coverage := r.pct_coverage
    ci_95 := r.ci_95 }

/-- Stage 3, percentage rescaling (line 202). -/
def pctRescaleStage (r : NumRow) : NumRow :=
  { r with pct_coverage := rescalePct r.pct_coverage }

/-- Stage 4, range split (lines 217-219): both bounds are derived from the
original interval string, which is then dropped. -/
def rangeSplitStage (r : NumRow) : SplitRow :=
  { year := r.year
    zone := r.zone
    vaccine := r.vaccine
    no_eligible := r.no_eligible
    no_immunized := r.no_immunized
    pct_coverage := r.pct_coverage
    lower_95_pct_ci := lowerCI r.ci_95
    upper_95_pct_ci := upperCI r.ci_95 }

/-- Stage 5, category normalization (lines 236-240). -/
def vaccineGroupStage (r : SplitRow) : CanonRow :=
  { year := r.year
    zone := r.zone
    vaccine := r.vaccine
    no_eligible := r.no_eligible
    no_immunized := r.no_immunized
    pct_coverage := r.pct_coverage
    lower_95_pct_ci := r.lower_95_pct_ci
    upper_95_pct_ci := r.upper_95_pct_ci
    vaccine_group := vaccineGroup r.vaccine }

/-- Stages 2-5 in pipeline order (the header stage acts on column names and
is modelled by `rename_cols`). -/
def runPipeline (r : RawRow) : CanonRow :=
  vaccineGroupStage (rangeSplitStage (pctRescaleStage (numCoerceStage r)))

/-- The range-split algorithm as worded by the spec, for comparison with the
implementation: split on the first/only `-` separator, giving at most two
segments. -/
def splitFirstHyphenSpec (l : List Char) : List (List Char) :=
  if '-' ∈ l then [l.takeWhile (· != '-'), (l.dropWhile (· != '-')).drop 1]
  else [l]

/-- Lower bound under the spec-worded first-hyphen split. -/
def lowerCISpec (s : String) : Option Dec :=
  ((splitFirstHyphenSpec s.data)[0]?).bind castStrDec41

/-- Upper bound under the spec-worded first-hyphen split. -/
def upperCISpec (s : String) : Option Dec :=
  ((splitFirstHyphenSpec s.data)[1]?).bind castStrDec41

/-! ### Helper lemmas on characters -/

theorem char_toNat_ofNat_of_lt (n : Nat) (h : n < 55296) : (Char.ofNat n).toNat = n := by
  unfold Char.ofNat
  rw [dif_pos (Or.inl h)]
  rfl

theorem toLower_eq_self_of (c : Char) (h : ¬(65 ≤ c.toNat ∧ c.toNat ≤ 90)) :
    c.toLower = c := by
  unfold Char.toLower
  rw [if_neg h]

theorem toNat_toLower_of (c : Char) (h : 65 ≤ c.toNat ∧ c.toNat ≤ 90) :
    c.toLower.toNat = c.toNat + 32 := by
  unfold Char.toLower
  rw [if_pos h]
  exact char_toNat_ofNat_of_lt _ (by omega)

theorem toLower_toLower (c : Char) : c.toLower.toLower = c.toLower := by
  by_cases h : 65 ≤ c.toNat ∧ c.toNat ≤ 90
  · have h2 := toNat_toLower_of c h
    apply toLower_eq_self_of
    omega
  · rw [toLower_eq_self_of c h, toLower_eq_self_of c h]

theorem toLower_ne (c x : Char) (hx : x.toNat < 97) (hcx : c ≠ x) : c.toLower ≠ x := by
  by_cases h : 65 ≤ c.toNat ∧ c.toNat ≤ 90
  · intro he
    have h2 := toNat_toLower_of c h
    rw [he] at h2
    omega
  · rw [toLower_eq_self_of c h]
    exact hcx

/-! ### Helper lemmas on the header canonicalizer -/

theorem insertSpaces_eq_self {l : List Char} (h : ∀ c ∈ l, c ≠ '%' ∧ c ≠ '#') :
    insertSpaces l = l := by
  induction l with
  | nil => rfl
  | cons c1 tl ih =>
    cases tl with
    | nil => rfl
    | cons c2 rest =>
      have h2 := h c2 (by simp)
      rw [insertSpaces, if_neg (by simp [h2.1, h2.2])]
      exact congrArg (c1 :: ·) (ih fun c hc => h c (List.mem_cons_of_mem _ hc))

theorem flatMap_replaceSpecial_eq_self {l : List Char}
    (h : ∀ c ∈ l, c ≠ '#' ∧ c ≠ '%' ∧ c ≠ ' ') : l.flatMap replaceSpecial = l := by
  induction l with
  | nil => rfl
  | cons c tl ih =>
    have hc := h c (by simp)
    rw [List.flatMap_cons, ih fun c hc => h c (List.mem_cons_of_mem _ hc)]
    rw [replaceSpecial, if_neg hc.1, if_neg hc.2.1, if_neg hc.2.2]
    rfl

theorem map_toLower_eq_self {l : List Char} (h : ∀ c ∈ l, c.toLower = c) :
    l.map Char.toLower = l := by
  induction l with
  | nil => rfl
  | cons c tl ih =>
    rw [List.map_cons, h c (by simp), ih fun c hc => h c (List.mem_cons_of_mem _ hc)]

theorem to_snake_case_chars {s : String} {d : Char} (hd : d ∈ (to_snake_case s).data) :
    (d ≠ '#' ∧ d ≠ '%' ∧ d ≠ ' ') ∧ d.toLower = d := by
  have hd2 : d ∈ ((insertSpaces s.data).flatMap replaceSpecial).map Char.toLower := hd
  rw [List.mem_map] at hd2
  obtain ⟨e, he, rfl⟩ := hd2
  rw [List.mem_flatMap] at he
  obtain ⟨c, _, hce⟩ := he
  by_cases h1 : c = '#'
  · rw [replaceSpecial, if_pos h1] at hce
    simp only [List.mem_cons, List.not_mem_nil, or_false] at hce
    rcases hce with rfl | rfl <;> exact ⟨by decide, by decide⟩
  by_cases h2 : c = '%'
  · rw [replaceSpecial, if_neg h1, if_pos h2] at hce
    simp only [List.mem_cons, List.not_mem_nil, or_false] at hce
    rcases hce with rfl | rfl | rfl <;> exact ⟨by decide, by decide⟩
  by_cases h3 : c = ' '
  · rw [replaceSpecial, if_neg h1, if_neg h2, if_pos h3] at hce
    simp only [List.mem_cons, List.not_mem_nil, or_false] at hce
    subst hce
    exact ⟨by decide, by decide⟩
  · rw [replaceSpecial, if_neg h1, if_neg h2, if_neg h3] at hce
    simp only [List.mem_cons, List.not_mem_nil, or_false] at hce
    subst hce
    exact ⟨⟨toLower_ne _ '#' (by decide) h1, toLower_ne _ '%' (by decide) h2,
      toLower_ne _ ' ' (by decide) h3⟩, toLower_toLower _⟩

/-! ### Helper lemmas on the numeric coercion -/

theorem dropWhile_eq_self_of {p : Char → Bool} {l : List Char}
    (h : ∀ c ∈ l, p c = false) : l.dropWhile p = l := by
  cases l with
  | nil => rfl
  | cons c cs =>
    rw [List.dropWhile_cons, h c (List.mem_cons_self _ _)]
    simp

theorem trimSpaces_eq_self {l : List Char} (h : ∀ c ∈ l, (c == ' ') = false) :
    trimSpaces l = l := by
  unfold trimSpaces
  rw [dropWhile_eq_self_of h]
  rw [dropWhile_eq_self_of fun c hc => h c (List.mem_reverse.mp hc)]
  exact List.reverse_reverse l

theorem parseIntChars_digits {l : List Char} (hne : l ≠ [])
    (hdig : l.all Char.isDigit = true) :
    parseIntChars l = some ((digitsToNat l : Int)) := by
  rw [parseIntChars.eq_def]
  split
  · exact absurd rfl hne
  · have h2 : ('-' : Char).isDigit = true :=
      List.all_eq_true.mp hdig '-' (List.mem_cons_self _ _)
    cases h2
  · have h2 : ('+' : Char).isDigit = true :=
      List.all_eq_true.mp hdig '+' (List.mem_cons_self _ _)
    cases h2
  · rw [if_pos hdig]

theorem sparkCastInt_digits {l : List Char} (hne : l ≠ [])
    (hdig : l.all Char.isDigit = true) (hle : (digitsToNat l : Int) ≤ int32Max) :
    sparkCastInt l = some ((digitsToNat l : Int)) := by
  have hsp : ∀ c ∈ l, (c == ' ') = false := by
    intro c hc
    have hcd := List.all_eq_true.mp hdig c hc
    cases hbe : c == ' ' with
    | false => rfl
    | true =>
      have heq : c = ' ' := beq_iff_eq.mp hbe
      subst heq
      cases hcd
  unfold sparkCastInt
  rw [trimSpaces_eq_self hsp, parseIntChars_digits hne hdig, Option.some_bind]
  rw [if_pos ⟨le_trans (by norm_num [int32Min]) (Int.natCast_nonneg _), hle⟩]

/-! ### Helper lemmas on the hyphen splitter -/

theorem splitChar_ne_nil (sep : Char) (l : List Char) : splitChar sep l ≠ [] := by
  induction l with
  | nil => simp [splitChar]
  | cons c cs ih =>
    rw [splitChar]
    split
    · simp
    · cases h : splitChar sep cs with
      | nil => exact absurd h ih
      | cons a t => simp [h]

theorem splitChar_head (sep : Char) (l : List Char) :
    (splitChar sep l)[0]? = some (l.takeWhile (fun c => c != sep)) := by
  induction l with
  | nil => simp [splitChar]
  | cons c cs ih =>
    rw [splitChar]
    split
    · subst ‹c = sep›
      simp [List.takeWhile_cons]
    · cases h : splitChar sep cs with
      | nil => exact absurd h (splitChar_ne_nil sep cs)
      | cons a t =>
        rw [h] at ih
        simp only [List.getElem?_cons_zero, Option.some.injEq] at ih
        simp [List.takeWhile_cons, bne_iff_ne, ‹¬c = sep›, ih]

theorem splitChar_of_not_mem {sep : Char} {l : List Char} (h : sep ∉ l) :
    splitChar sep l = [l] := by
  induction l with
  | nil => rfl
  | cons c cs ih =>
    have hc : ¬c = sep := by
      rintro rfl
      exact h (List.mem_cons_self _ _)
    rw [splitChar, if_neg hc, ih fun hm => h (List.mem_cons_of_mem c hm)]
    rfl

theorem splitChar_eq_spec {l : List Char} (h : l.count '-' ≤ 1) :
    splitChar '-' l = splitFirstHyphenSpec l := by
  induction l with
  | nil => rfl
  | cons c cs ih =>
    by_cases hc : c = '-'
    · subst hc
      rw [splitChar, if_pos rfl]
      have hcs : '-' ∉ cs := by
        rw [← List.count_eq_zero]
        have h2 : cs.count '-' + 1 ≤ 1 := by simpa using h
        omega
      rw [splitChar_of_not_mem hcs]
      rw [splitFirstHyphenSpec, if_pos (List.mem_cons_self _ _)]
      simp [List.takeWhile_cons, List.dropWhile_cons]
    · have hcount : cs.count '-' ≤ 1 := by simpa [List.count_cons, hc] using h
      rw [splitChar, if_neg hc, ih hcount]
      by_cases hm : '-' ∈ cs
      · rw [splitFirstHyphenSpec, if_pos hm]
        rw [splitFirstHyphenSpec, if_pos (List.mem_cons_of_mem c hm)]
        simp [List.takeWhile_cons, List.dropWhile_cons, bne_iff_ne, hc]
      · rw [splitFirstHyphenSpec, if_neg hm]
        have hnm : '-' ∉ c :: cs := by simp [hm, Ne.symm hc]
        rw [splitFirstHyphenSpec, if_neg hnm]
        rfl

/-! ### Helper lemmas on the separator splitter -/

theorem splitDashSep_of_no_sep {l : List Char} (h : containsDashSep l = false) :
    splitDashSep l = [l] := by
  induction l using splitDashSep.induct with
  | case1 rest ih =>
    rw [containsDashSep] at h
    cases h
  | case2 c cs hne ih =>
    rw [containsDashSep.eq_def] at h
    rw [splitDashSep.eq_def]
    split
    · rename_i rest heq
      injection heq with e1 e2
      exact (hne rest e1 e2).elim
    · rename_i c2 cs2 hne2 heq
      injection heq with e1 e2
      subst e1
      subst e2
      split at h
      · rename_i rest heq2
        injection heq2 with f1 f2
        exact (hne rest f1 f2).elim
      · rename_i c3 cs3 hne3 heq2
        injection heq2 with f1 f2
        subst f1
        subst f2
        rw [ih h]
        rfl
      · rename_i heq2
        cases heq2
    · rename_i heq
      cases heq
  | case3 => rfl

/-! ### Helper lemmas on HALF_UP rounding -/

theorem floor_half_aux (a : ℤ) (b : ℕ) (hb : 0 < b) :
    ⌊(a : ℚ) / (b : ℚ) + 1 / 2⌋ = (2 * a + (b : ℤ)).fdiv (2 * (b : ℤ)) := by
  have hbq : (0 : ℚ) < (b : ℚ) := by exact_mod_cast hb
  have h2 : (a : ℚ) / (b : ℚ) + 1 / 2 = ((2 * a + (b : ℤ) : ℤ) : ℚ) / ((2 * b : ℕ) : ℚ) := by
    push_cast
    field_simp
    ring
  rw [h2, Rat.floor_intCast_div_natCast]
  rw [Int.fdiv_eq_ediv _ (by positivity)]
  push_cast
  rfl

theorem roundHalfUpDiv_eq (a : ℤ) (b : ℕ) (hb : 0 < b) :
    roundHalfUpDiv a b = roundHalfUp ((a : ℚ) / (b : ℚ)) := by
  have hbq : (0 : ℚ) < (b : ℚ) := by exact_mod_cast hb
  unfold roundHalfUpDiv roundHalfUp
  by_cases ha : 0 ≤ a
  · rw [if_pos ha, if_pos (div_nonneg (by exact_mod_cast ha) (le_of_lt hbq))]
    exact (floor_half_aux a b hb).symm
  · have ha2 : (a : ℚ) / (b : ℚ) < 0 :=
      div_neg_of_neg_of_pos (by exact_mod_cast lt_of_not_ge ha) hbq
    rw [if_neg ha, if_neg (not_le.mpr ha2)]
    rw [show (a : ℚ) / (b : ℚ) - 1 / 2 = -((((-a : ℤ)) : ℚ) / (b : ℚ) + 1 / 2) by
      push_cast; ring]
    rw [Int.ceil_neg, floor_half_aux (-a) b hb]

theorem roundHalfUp_mono {q r : ℚ} (h : q ≤ r) : roundHalfUp q ≤ roundHalfUp r := by
  unfold roundHalfUp
  by_cases hq : 0 ≤ q
  · rw [if_pos hq, if_pos (le_trans hq h)]
    exact Int.floor_mono (by linarith)
  · rw [if_neg hq]
    by_cases hr : 0 ≤ r
    · rw [if_pos hr]
      have h1 : (⌈q - 1 / 2⌉ : ℤ) ≤ 0 := Int.ceil_le.mpr (by push_cast; linarith)
      have h2 : (0 : ℤ) ≤ ⌊r + 1 / 2⌋ := Int.le_floor.mpr (by push_cast; linarith)
      omega
    · rw [if_neg hr]
      exact Int.ceil_mono (by linarith)

theorem castDec41_some {d r : Dec} (h : castDec41 d = some r) :
    r.man = roundHalfUp (d.toRat * 10) ∧ r.exp = 1 := by
  simp only [castDec41] at h
  split at h
  · have hr : r = ⟨roundHalfUpDiv (d.man * 10) (10 ^ d.exp), 1⟩ := (Option.some.inj h).symm
    subst hr
    refine ⟨?_, rfl⟩
    show roundHalfUpDiv (d.man * 10) (10 ^ d.exp) = _
    rw [roundHalfUpDiv_eq _ _ (pow_pos (by norm_num) _)]
    congr 1
    rw [Dec.toRat]
    push_cast
    ring
  · cases h

theorem toRat_le_of_cross {q1 q2 : Dec}
    (h : q1.man * 10 ^ q2.exp ≤ q2.man * 10 ^ q1.exp) : q1.toRat ≤ q2.toRat := by
  rw [Dec.toRat, Dec.toRat, div_le_div_iff₀ (by positivity) (by positivity)]
  exact_mod_cast h

theorem castStrDec41_bind_some {o : Option (List Char)} {x : Dec}
    (h : o.bind castStrDec41 = some x) :
    ∃ q : Dec, o.bind (fun t => parseDecChars (trimSpaces t)) = some q ∧
      castDec41 q = some x := by
  cases o with
  | none => cases h
  | some t =>
    rw [Option.some_bind, castStrDec41] at h
    cases hp : parseDecChars (trimSpaces t) with
    | none =>
      rw [hp] at h
      cases h
    | some q =>
      rw [hp, Option.some_bind] at h
      exact ⟨q, by rw [Option.some_bind, hp], h⟩

/-! ### Claim theorems -/

/-- Claim C1: for the input row `{Year: 2018, Zone: "Central",
Vaccine: "HBV - Dose 1", "# Eligible": "1,200", "# Immunized": "1,050",
"% Coverage": 0.875, "95% CI": "82.0-92.0"}`, running all five pipeline
stages in order produces exactly the row `{year: 2018, zone: "Central",
vaccine: "HBV - Dose 1", no_eligible: 1200, no_immunized: 1050,
pct_coverage: 87.5, lower_95_pct_ci: 82.0, upper_95_pct_ci: 92.0,
vaccine_group: "HBV"}`.  The decimal cells are Spark decimals of scale 1
whose rational values are spelled out in the last four conjuncts. -/
theorem pipeline_end_to_end :
    rename_cols ["Year", "Zone", "Vaccine", "# Eligible", "# Immunized",
        "% Coverage", "95% CI"] =
      ["year", "zone", "vaccine", "no_eligible", "no_immunized",
        "pct_coverage", "95_pct_ci"] ∧
    runPipeline
      { year := 2018, zone := "Central", vaccine := "HBV - Dose 1",
        no_eligible := "1,200", no_immunized := "1,050",
        pct_coverage := some ⟨875, 3⟩, ci_95 := "82.0-92.0" } =
      { year := 2018, zone := "Central", vaccine := "HBV - Dose 1",
        no_eligible := some 1200, no_immunized := some 1050,
        pct_coverage := some ⟨875, 1⟩, lower_95_pct_ci := some ⟨820, 1⟩,
        upper_95_pct_ci := some ⟨920, 1⟩, vaccine_group := "HBV" } ∧
    (Dec.mk 875 3).toRat = 875 / 1000 ∧
    (Dec.mk 875 1).toRat = 875 / 10 ∧
    (Dec.mk 820 1).toRat = 82 ∧
    (Dec.mk 920 1).toRat = 92 := by
  refine ⟨by decide, by decide, ?_, ?_, ?_, ?_⟩ <;> norm_num [Dec.toRat]

/-- Claim C2, counterexample: the range splitter does not split on only the
first hyphen.  On `"70-80-90"` the code yields `80.0` as the upper bound
(segment 1 of the every-hyphen split), whereas splitting on the first/only
`-` would cast `"80-90"` and yield null, so the claimed algorithm differs
from the code. -/
theorem rangeSplit_first_hyphen_cex :
    upperCI "70-80-90" = some ⟨800, 1⟩ ∧
    upperCISpec "70-80-90" = none ∧
    ¬(∀ s : String, upperCI s = upperCISpec s) :=
  ⟨by decide, by decide, fun hall => absurd (hall "70-80-90") (by decide)⟩

/-- Claim C2, amended: the range splitter splits the interval string on
every `-` occurrence; segment 0 (the text before the first `-`) is cast as
the lower bound and segment 1 as the upper bound, each to a scale-1 decimal,
and a missing segment yields null without raising.  When the string contains
at most one `-`, this agrees with splitting on the first/only `-`; in
particular `split("80.0-95.5") = (80.0, 95.5)` and
`split("80.0") = (80.0, null)`. -/
theorem rangeSplit_every_hyphen :
    (∀ l : List Char, (splitChar '-' l)[0]? = some (l.takeWhile (fun c => c != '-'))) ∧
    (∀ l : List Char, l.count '-' ≤ 1 → splitChar '-' l = splitFirstHyphenSpec l) ∧
    lowerCI "80.0-95.5" = some ⟨800, 1⟩ ∧
    upperCI "80.0-95.5" = some ⟨955, 1⟩ ∧
    (Dec.mk 800 1).toRat = 80 ∧
    (Dec.mk 955 1).toRat = 955 / 10 ∧
    lowerCI "80.0" = some ⟨800, 1⟩ ∧
    upperCI "80.0" = none ∧
    upperCI "70-80-90" = some ⟨800, 1⟩ :=
  ⟨fun l => splitChar_head '-' l, fun l h => splitChar_eq_spec h,
   by decide, by decide, by norm_num [Dec.toRat], by norm_num [Dec.toRat],
   by decide, by decide, by decide⟩

/-- Witness for `rangeSplit_every_hyphen` at the concrete one-hyphen-free
string `"80.0"`. -/
theorem rangeSplit_every_hyphen_w :
    splitChar '-' "80.0".data = splitFirstHyphenSpec "80.0".data :=
  rangeSplit_every_hyphen.2.1 "80.0".data (by decide)

/-- Claim C3: the header canonicalization function is idempotent — applying
`to_snake_case` to its own output returns that output unchanged, for every
string. -/
theorem to_snake_case_idempotent :
    ∀ s : String, to_snake_case (to_snake_case s) = to_snake_case s := by
  intro s
  show String.mk (((insertSpaces (to_snake_case s).data).flatMap replaceSpecial).map
      Char.toLower) = to_snake_case s
  rw [insertSpaces_eq_self fun c hc =>
    ⟨(to_snake_case_chars hc).1.2.1, (to_snake_case_chars hc).1.1⟩]
  rw [flatMap_replaceSpecial_eq_self fun c hc => (to_snake_case_chars hc).1]
  rw [map_toLower_eq_self fun c hc => (to_snake_case_chars hc).2]

/-- Claim C4, counterexample: after the range-splitting stage the ordering
`lower_95_pct_ci ≤ upper_95_pct_ci` does not hold for every row with both
bounds non-null — the stage performs no such check, so the interval string
`"95.5-80.0"` produces the non-null bounds 95.5 and 80.0 in decreasing
order. -/
theorem rangeSplit_bounds_cex :
    (rangeSplitStage
        { year := 2020, zone := "Western", vaccine := "HPV",
          no_eligible := none, no_immunized := none, pct_coverage := none,
          ci_95 := "95.5-80.0" }).lower_95_pct_ci = some ⟨955, 1⟩ ∧
    (rangeSplitStage
        { year := 2020, zone := "Western", vaccine := "HPV",
          no_eligible := none, no_immunized := none, pct_coverage := none,
          ci_95 := "95.5-80.0" }).upper_95_pct_ci = some ⟨800, 1⟩ ∧
    ¬((Dec.mk 955 1).toRat ≤ (Dec.mk 800 1).toRat) :=
  ⟨by decide, by decide, by norm_num [Dec.toRat]⟩

/-- Claim C4, amended: after the range-splitting stage, for every row in
which both derived bound columns are non-null, both values are decimals with
one fractional digit (scale 1, value `man / 10`) — unconditionally — and
`lower_95_pct_ci ≤ upper_95_pct_ci` holds additionally provided the two
parsed segments of the interval string are in non-decreasing order (the
cross-multiplied form of `q1.toRat ≤ q2.toRat`), an assumption on the input
data that the stage itself does not enforce. -/
theorem rangeSplitStage_bounds (r : NumRow) (l u : Dec)
    (hl : (rangeSplitStage r).lower_95_pct_ci = some l)
    (hu : (rangeSplitStage r).upper_95_pct_ci = some u) :
    (l.exp = 1 ∧ u.exp = 1 ∧ l.toRat = (l.man : ℚ) / 10 ∧
      u.toRat = (u.man : ℚ) / 10) ∧
    (∀ q1 q2 : Dec,
      ((splitChar '-' r.ci_95.data)[0]?).bind
        (fun t => parseDecChars (trimSpaces t)) = some q1 →
      ((splitChar '-' r.ci_95.data)[1]?).bind
        (fun t => parseDecChars (trimSpaces t)) = some q2 →
      q1.man * 10 ^ q2.exp ≤ q2.man * 10 ^ q1.exp →
      l.toRat ≤ u.toRat) := by
  have hl2 : ((splitChar '-' r.ci_95.data)[0]?).bind castStrDec41 = some l := hl
  have hu2 : ((splitChar '-' r.ci_95.data)[1]?).bind castStrDec41 = some u := hu
  obtain ⟨p1, hp1, hc1⟩ := castStrDec41_bind_some hl2
  obtain ⟨p2, hp2, hc2⟩ := castStrDec41_bind_some hu2
  obtain ⟨hml, hel⟩ := castDec41_some hc1
  obtain ⟨hmu, heu⟩ := castDec41_some hc2
  have htl : l.toRat = (l.man : ℚ) / 10 := by rw [Dec.toRat, hel, pow_one]
  have htu : u.toRat = (u.man : ℚ) / 10 := by rw [Dec.toRat, heu, pow_one]
  refine ⟨⟨hel, heu, htl, htu⟩, fun q1 q2 h1 h2 hq => ?_⟩
  have e1 : q1 = p1 := by
    rw [h1] at hp1
    exact Option.some.inj hp1
  have e2 : q2 = p2 := by
    rw [h2] at hp2
    exact Option.some.inj hp2
  subst e1
  subst e2
  have hmono : l.man ≤ u.man := by
    rw [hml, hmu]
    exact roundHalfUp_mono
      (mul_le_mul_of_nonneg_right (toRat_le_of_cross hq) (by norm_num))
  have hcast : (l.man : ℚ) ≤ (u.man : ℚ) := by exact_mod_cast hmono
  rw [htl, htu]
  linarith

/-- Witness for `rangeSplitStage_bounds` at the concrete row whose interval
string is `"82.0-92.0"`, exercising both the unconditional scale-1 part and
the ordered-input implication. -/
theorem rangeSplitStage_bounds_w :
    (Dec.mk 820 1).exp = 1 ∧ (Dec.mk 920 1).exp = 1 ∧
    (Dec.mk 820 1).toRat = ((820 : ℤ) : ℚ) / 10 ∧
    (Dec.mk 920 1).toRat = ((920 : ℤ) : ℚ) / 10 ∧
    (Dec.mk 820 1).toRat ≤ (Dec.mk 920 1).toRat := by
  have h := rangeSplitStage_bounds
    { year := 2018, zone := "Central", vaccine := "HBV - Dose 1",
      no_eligible := some 1200, no_immunized := some 1050,
      pct_coverage := some ⟨875, 1⟩, ci_95 := "82.0-92.0" }
    ⟨820, 1⟩ ⟨920, 1⟩ (by decide) (by decide)
  exact ⟨h.1.1, h.1.2.1, h.1.2.2.1, h.1.2.2.2,
    h.2 ⟨820, 1⟩ ⟨920, 1⟩ (by decide) (by decide) (by decide)⟩

/-- Claim C5: the category normalizer splits the category string on the
literal separator `" - "`, takes the first segment as the default group
label, and forces any derived label beginning with `MEN-C` to the exact
label `"MEN-C"`; in particular `group("HBV - Dose 1") = "HBV"`,
`group("HBV") = "HBV"`, `group("MEN-C-ACYW135") = "MEN-C"` and
`group("MEN-C - Dose 2") = "MEN-C"`, and a string without the separator
becomes its own group label without crashing. -/
theorem vaccineGroup_spec :
    vaccineGroup "HBV - Dose 1" = "HBV" ∧
    vaccineGroup "HBV" = "HBV" ∧
    vaccineGroup "MEN-C-ACYW135" = "MEN-C" ∧
    vaccineGroup "MEN-C - Dose 2" = "MEN-C" ∧
    (∀ s : String, vaccineGroup s =
      if ("MEN-C".data).isPrefixOf ((splitDashSep s.data).headD []) then "MEN-C"
      else String.mk ((splitDashSep s.data).headD [])) ∧
    (∀ s : String, containsDashSep s.data = false → splitDashSep s.data = [s.data]) ∧
    (∀ s : String, containsDashSep s.data = false →
      ("MEN-C".data).isPrefixOf s.data = false → vaccineGroup s = s) := by
  refine ⟨by decide, by decide, by decide, by decide, fun s => rfl,
    fun s h => splitDashSep_of_no_sep h, fun s h hp => ?_⟩
  show (if ("MEN-C".data).isPrefixOf ((splitDashSep s.data).headD []) then "MEN-C"
    else String.mk ((splitDashSep s.data).headD [])) = s
  rw [splitDashSep_of_no_sep h]
  rw [List.headD_cons, if_neg (by simp [hp])]

/-- Witness for `vaccineGroup_spec` at the separator-free string `"HPV"`. -/
theorem vaccineGroup_spec_w :
    splitDashSep "HPV".data = ["HPV".data] ∧ vaccineGroup "HPV" = "HPV" :=
  ⟨vaccineGroup_spec.2.2.2.2.2.1 "HPV" (by decide),
   vaccineGroup_spec.2.2.2.2.2.2 "HPV" (by decide) (by decide)⟩

/-- Claim C6: numeric coercion removes every comma and parses the result as
an integer, degrading to null instead of failing; `coerce("1,234") = 1234`,
`coerce("abc") = null`, and any value whose comma-stripped form is a
non-empty digit string within 32-bit range parses to its numeric value. -/
theorem coerceCount_spec :
    coerceCount "1,234" = some 1234 ∧
    coerceCount "abc" = none ∧
    (∀ (s : String) (t : List Char), t = s.data.filter (fun c => c != ',') →
      t ≠ [] → t.all Char.isDigit = true → (digitsToNat t : Int) ≤ int32Max →
      coerceCount s = some ((digitsToNat t : Int))) := by
  refine ⟨by decide, by decide, fun s t ht hne hdig hle => ?_⟩
  show sparkCastInt (s.data.filter (fun c => c != ',')) = some ((digitsToNat t : Int))
  rw [← ht]
  exact sparkCastInt_digits hne hdig hle

/-- Witness for `coerceCount_spec` at the concrete value `"2,500"`. -/
theorem coerceCount_spec_w : coerceCount "2,500" = some 2500 :=
  coerceCount_spec.2.2 "2,500" "2500".data (by decide) (by decide) (by decide)
    (by decide)

/-- Claim C7: the percentage rescaler multiplies the coverage value by 100
and reduces it to one decimal digit (scale 1); a null input stays null; the
same formula is applied to every value with no range validation (so values
above 1 are rescaled as well, e.g. 1.5 becomes 150.0); `rescale(0.873) =
87.3`. -/
theorem rescalePct_spec :
    rescalePct none = none ∧
    rescalePct (some ⟨873, 3⟩) = some ⟨873, 1⟩ ∧
    (Dec.mk 873 3).toRat = 873 / 1000 ∧
    (Dec.mk 873 1).toRat = 873 / 10 ∧
    rescalePct (some ⟨15, 1⟩) = some ⟨1500, 1⟩ ∧
    (∀ d : Dec, rescalePct (some d) = castDec41 (mulHundred d)) ∧
    (∀ d : Dec, (mulHundred d).toRat = d.toRat * 100) := by
  refine ⟨rfl, by decide, by norm_num [Dec.toRat], by norm_num [Dec.toRat],
    by decide, fun d => rfl, fun d => ?_⟩
  simp only [mulHundred, Dec.toRat]
  push_cast
  ring

/-- Claim C8: the numeric-coercion stage changes only the two target columns
`no_immunized` and `no_eligible`; every other column of the row is identical
before and after the stage. -/
theorem numCoerceStage_frame :
    ∀ r : RawRow,
      (numCoerceStage r).year = r.year ∧
      (numCoerceStage r).zone = r.zone ∧
      (numCoerceStage r).vaccine = r.vaccine ∧
      (numCoerceStage r).pct_coverage = r.pct_coverage ∧
      (numCoerceStage r).ci_95 = r.ci_95 ∧
      (numCoerceStage r).no_eligible = coerceCount r.no_eligible ∧
      (numCoerceStage r).no_immunized = coerceCount r.no_immunized :=
  fun r => ⟨rfl, rfl, rfl, rfl, rfl, rfl, rfl⟩

/-- Claim C9: the header canonicalizer is total over strings — characters
other than `#`, `%` and space pass through unchanged except for
lower-casing — and over a sequence of column names it yields a sequence of
equal length, in the same order, each name transformed independently. -/
theorem rename_cols_shape :
    (∀ cols : List String, (rename_cols cols).length = cols.length) ∧
    (∀ (cols : List String) (i : ℕ),
      (rename_cols cols)[i]? = (cols[i]?).map to_snake_case) ∧
    (∀ s : String, (∀ c ∈ s.data, c ≠ '#' ∧ c ≠ '%' ∧ c ≠ ' ') →
      to_snake_case s = String.mk (s.data.map Char.toLower)) := by
  refine ⟨fun cols => List.length_map cols to_snake_case,
    fun cols i => List.getElem?_map to_snake_case cols i, fun s h => ?_⟩
  show String.mk (((insertSpaces s.data).flatMap replaceSpecial).map Char.toLower) = _
  rw [insertSpaces_eq_self fun c hc => ⟨(h c hc).2.1, (h c hc).1⟩]
  rw [flatMap_replaceSpecial_eq_self h]

/-- Witness for `rename_cols_shape` at the special-character-free string
`"Zone5"`. -/
theorem rename_cols_shape_w :
    to_snake_case "Zone5" = String.mk ("Zone5".data.map Char.toLower) :=
  rename_cols_shape.2.2 "Zone5" (by decide)

/-- Claim C10: for an interval string whose lower bound carries its own
leading `-`, such as `"-5.0-10.0"`, the code splits on every hyphen, so
segment 0 is the empty string (whose decimal cast is null) and segment 1
holds the digits of the negative bound: the lower bound comes out null and
the upper bound is the magnitude 5.0. -/
theorem negative_lower_bound_split :
    splitChar '-' "-5.0-10.0".data = [[], "5.0".data, "10.0".data] ∧
    castStrDec41 [] = none ∧
    lowerCI "-5.0-10.0" = none ∧
    upperCI "-5.0-10.0" = some ⟨50, 1⟩ ∧
    (Dec.mk 50 1).toRat = 5 :=
  ⟨by decide, by decide, by decide, by decide, by norm_num [Dec.toRat]⟩
